import Mathlib

/-!
Verification of the korelium.org course-catalog backend.

This file gives a shallow embedding, in Lean 4, of the request handlers of
the Express backend (`server.js`, `routes/*.js`, `controllers/*.js`,
`middleware/authMiddleware.js`) and proves properties about them.

Conventions of the embedding:
* JavaScript values that may be `undefined`/`null` are modelled with
  `Option`; `none` stands for an absent (`undefined`) or `null` value, and
  string falsiness (`"" `is falsy) is handled explicitly at each use site.
* Handlers that can throw inside their `try { ... } catch` block are
  modelled with `Except String`; the `catch` branch of every handler
  responds 500 with message "Server error", which is what `.error` denotes.
* Database tables are modelled as lists of row records, and handlers that
  write take the table as input and return the updated table.
* Third-party library functions called by the code (`JSON.parse`,
  `JSON.stringify`, `String.prototype.split`, `bcrypt`, `jsonwebtoken`)
  are modelled explicitly below, each with a comment stating the modelled
  behaviour and its limits.
-/

namespace Korelium

/-! ## Model of `String.prototype.split` (JavaScript)

`jsSplitChar sep s` models `s.split(sep)` for a single-character separator:
the result always has at least one element, empty fragments are kept, and
splitting the empty string yields `[""]`. -/

/-- JavaScript `split` on a single-character separator, over `List Char`. -/
def jsSplitChar (sep : Char) : List Char → List (List Char)
  | [] => [[]]
  | c :: r =>
    let rest := jsSplitChar sep r
    if c = sep then [] :: rest
    else (c :: rest.headD []) :: rest.tail

theorem jsSplitChar_ne_nil (sep : Char) (l : List Char) : jsSplitChar sep l ≠ [] := by
  cases l with
  | nil => simp [jsSplitChar]
  | cons c r =>
    simp only [jsSplitChar]
    split <;> simp

theorem jsSplitChar_no_sep (sep : Char) (l : List Char) (h : sep ∉ l) :
    jsSplitChar sep l = [l] := by
  induction l with
  | nil => rfl
  | cons c r ih =>
    simp only [List.mem_cons, not_or] at h
    simp only [jsSplitChar, ih h.2]
    rw [if_neg (by exact fun hc => h.1 hc.symm)]
    simp

theorem jsSplitChar_append_sep (sep : Char) (l t : List Char) (h : sep ∉ l) :
    jsSplitChar sep (l ++ sep :: t) = l :: jsSplitChar sep t := by
  induction l with
  | nil => simp [jsSplitChar]
  | cons c r ih =>
    simp only [List.mem_cons, not_or] at h
    have hr := ih h.2
    simp only [List.cons_append, jsSplitChar]
    rw [if_neg (by exact fun hc => h.1 hc.symm)]
    simp [hr]

/-! ## Model of `JSON.stringify` / `JSON.parse` for arrays of strings

The `tags` and `whatYoullLearn` columns hold, per the data model, serialized
arrays of strings, and the handlers only ever stringify arrays of strings.
We therefore model the JSON text form of exactly this fragment:
`jsonStringifyStrArray` is `JSON.stringify` on an array of strings
(escaping `"` and `\` and control characters, as `JSON.stringify` does),
and `jsonParseStrArray` accepts precisely the canonical serialized form of
an array of strings, returning `none` on any other text. Texts that are
valid JSON of some other shape (or use insignificant whitespace) also count
as parse failures in this model; no claim below depends on such inputs. -/

/-- Lower-case hexadecimal digit character, as used by `JSON.stringify`. -/
def hexDigitChar (n : Nat) : Char :=
  if n < 10 then Char.ofNat (48 + n) else Char.ofNat (87 + n)

/-- Decode one hexadecimal digit character (either case). -/
def decodeHexDigit (c : Char) : Option Nat :=
  if 48 ≤ c.toNat ∧ c.toNat ≤ 57 then some (c.toNat - 48)
  else if 97 ≤ c.toNat ∧ c.toNat ≤ 102 then some (c.toNat - 87)
  else if 65 ≤ c.toNat ∧ c.toNat ≤ 70 then some (c.toNat - 55)
  else none

/-- How `JSON.stringify` renders one character inside a string literal:
`"` and `\` get a backslash escape, the five short-escape control
characters use their short form, the remaining control characters use
`\u00xx`, and every other character is emitted literally. -/
def encodeChar (c : Char) : List Char :=
  if c = '"' then ['\\', '"']
  else if c = '\\' then ['\\', '\\']
  else if c = Char.ofNat 8 then ['\\', 'b']
  else if c = Char.ofNat 9 then ['\\', 't']
  else if c = Char.ofNat 10 then ['\\', 'n']
  else if c = Char.ofNat 12 then ['\\', 'f']
  else if c = Char.ofNat 13 then ['\\', 'r']
  else if c.toNat < 32 then
    ['\\', 'u', '0', '0', hexDigitChar (c.toNat / 16), hexDigitChar (c.toNat % 16)]
  else [c]

/-- Body of a JSON string literal: every character escaped as needed. -/
def encodeStringChars : List Char → List Char
  | [] => []
  | c :: r => encodeChar c ++ encodeStringChars r

/-- Characters of the serialization of the items of a nonempty string
array: `"x1","x2",...,"xn"]` (the opening bracket is added by
`jsonStringifyStrArray`). -/
def itemsChars (x : String) : List String → List Char
  | [] => '"' :: (encodeStringChars x.data ++ ['"', ']'])
  | y :: ys => '"' :: (encodeStringChars x.data ++ '"' :: ',' :: itemsChars y ys)

/-- `JSON.stringify` on an array of strings: `[]` for the empty array,
otherwise `["x1",...,"xn"]` with no insignificant whitespace. -/
def jsonStringifyStrArray : List String → String
  | [] => "[]"
  | x :: ys => String.mk ('[' :: itemsChars x ys)

/-- Decode the escape sequence that follows a backslash in a JSON string
literal, returning the decoded character and the remaining input. -/
def unescapeOne : List Char → Option (Char × List Char)
  | [] => none
  | e :: r =>
    if e = '"' then some ('"', r)
    else if e = '\\' then some ('\\', r)
    else if e = '/' then some ('/', r)
    else if e = 'b' then some (Char.ofNat 8, r)
    else if e = 't' then some (Char.ofNat 9, r)
    else if e = 'n' then some (Char.ofNat 10, r)
    else if e = 'f' then some (Char.ofNat 12, r)
    else if e = 'r' then some (Char.ofNat 13, r)
    else if e = 'u' then
      match r with
      | a :: b :: c :: d :: r2 =>
        match decodeHexDigit a, decodeHexDigit b, decodeHexDigit c, decodeHexDigit d with
        | some ha, some hb, some hc, some hd =>
          some (Char.ofNat (4096 * ha + 256 * hb + 16 * hc + hd), r2)
        | _, _, _, _ => none
      | _ => none
    else none

/-- `unescapeOne` consumes at least one character. -/
theorem unescapeOne_length {l : List Char} {c : Char} {r : List Char}
    (h : unescapeOne l = some (c, r)) : r.length < l.length := by
  match l with
  | [] => simp [unescapeOne] at h
  | e :: t =>
    simp only [unescapeOne] at h
    split_ifs at h <;> try (cases h; simp)
    · match t with
      | [] => cases h
      | [a] => cases h
      | [a, b] => cases h
      | [a, b, c2] => cases h
      | a :: b :: c2 :: d :: r2 =>
        cases ha : decodeHexDigit a <;> cases hb : decodeHexDigit b <;>
          cases hc : decodeHexDigit c2 <;> cases hd : decodeHexDigit d <;>
          simp [ha, hb, hc, hd] at h
        obtain ⟨hceq, hreq⟩ := h
        subst hreq
        simp
        omega

/-- Parse the body of a JSON string literal up to its closing quote,
returning the decoded characters and the remaining input. -/
def parseStringBody : List Char → Option (List Char × List Char)
  | [] => none
  | c :: r =>
    if c = '"' then some ([], r)
    else if c = '\\' then
      match h : unescapeOne r with
      | none => none
      | some (d, r2) => (parseStringBody r2).map (fun p => (d :: p.1, p.2))
    else (parseStringBody r).map (fun p => (c :: p.1, p.2))
termination_by l => l.length
decreasing_by
  · have := unescapeOne_length h
    simp only [List.length_cons]
    omega
  · simp

/-- Helper for `parseStringBody_length`: strong induction on a length bound. -/
theorem parseStringBody_length_aux :
    ∀ (n : Nat) (l : List Char), l.length ≤ n →
      ∀ s r, parseStringBody l = some (s, r) → r.length < l.length := by
  intro n
  induction n with
  | zero =>
    intro l hl s r h
    match l with
    | [] => simp [parseStringBody] at h
    | c :: t => simp at hl
  | succ n ih =>
    intro l hl s r h
    match l with
    | [] => simp [parseStringBody] at h
    | c :: t =>
      simp only [List.length_cons, Nat.succ_le_succ_iff] at hl
      simp only [parseStringBody] at h
      by_cases h1 : c = '"'
      · rw [if_pos h1] at h
        injection h with h
        injection h with h h2
        subst h2
        simp
      · rw [if_neg h1] at h
        by_cases h2 : c = '\\'
        · rw [if_pos h2] at h
          split at h
          · exact absurd h (by simp)
          · rename_i d r2 hu
            simp only [Option.map_eq_some'] at h
            obtain ⟨p, hp, he⟩ := h
            have hlt := unescapeOne_length hu
            have hp2 := ih r2 (by omega) p.1 p.2 (by simpa using hp)
            cases he
            simp only [List.length_cons]
            omega
        · rw [if_neg h2] at h
          simp only [Option.map_eq_some'] at h
          obtain ⟨p, hp, he⟩ := h
          have hp2 := ih t hl p.1 p.2 (by simpa using hp)
          cases he
          simp only [List.length_cons]
          omega

/-- The remainder left by a successful `parseStringBody` is strictly
shorter than the input (at least the closing quote is consumed). -/
theorem parseStringBody_length {l : List Char} {s r : List Char}
    (h : parseStringBody l = some (s, r)) : r.length < l.length :=
  parseStringBody_length_aux l.length l le_rfl s r h

theorem parseStringBody_quote (t : List Char) : parseStringBody ('"' :: t) = some ([], t) := by
  simp [parseStringBody]

theorem parseStringBody_backslash (t : List Char) (d : Char) (r2 : List Char)
    (hu : unescapeOne t = some (d, r2)) :
    parseStringBody ('\\' :: t) = (parseStringBody r2).map (fun p => (d :: p.1, p.2)) := by
  simp only [parseStringBody]
  split
  · rename_i heq; exact absurd heq (by decide)
  · rw [if_pos trivial]
    split
    · rename_i heq
      rw [hu] at heq
      cases heq
    · rename_i d2 r22 heq
      rw [hu] at heq
      injection heq with heq
      injection heq with h1 h2
      subst h1; subst h2
      rfl

theorem parseStringBody_normal (c : Char) (t : List Char) (h1 : ¬c = '"') (h2 : ¬c = '\\') :
    parseStringBody (c :: t) = (parseStringBody t).map (fun p => (c :: p.1, p.2)) := by
  simp only [parseStringBody]
  rw [if_neg h1, if_neg h2]

theorem decodeHexDigit_hexDigitChar (n : Nat) (h : n < 16) :
    decodeHexDigit (hexDigitChar n) = some n := by
  interval_cases n <;> decide

/-- Valid scalar values below 32 survive the `Char.ofNat`/`Char.toNat`
round trip. -/
theorem char_ofNat_toNat {c : Char} (h : c.toNat < 32) : Char.ofNat c.toNat = c := by
  have hv : c.toNat.isValidChar := by
    unfold Nat.isValidChar
    left; omega
  simp only [Char.ofNat, hv, dif_pos]
  apply Char.ext
  apply UInt32.ext
  simp [Char.ofNatAux, Char.toNat, UInt32.toNat]

/-- Parsing the escape-encoding of one character recovers that character. -/
theorem parseStringBody_encodeChar (c : Char) (t : List Char) :
    parseStringBody (encodeChar c ++ t) =
      (parseStringBody t).map (fun p => (c :: p.1, p.2)) := by
  by_cases h1 : c = '"'
  · subst h1
    rw [show encodeChar '"' = ['\\', '"'] from by decide, List.cons_append, List.cons_append,
      List.nil_append]
    exact parseStringBody_backslash _ _ _ (by simp [unescapeOne])
  by_cases h2 : c = '\\'
  · subst h2
    rw [show encodeChar '\\' = ['\\', '\\'] from by decide, List.cons_append, List.cons_append,
      List.nil_append]
    exact parseStringBody_backslash _ _ _ (by simp [unescapeOne])
  by_cases h3 : c = Char.ofNat 8
  · subst h3
    rw [show encodeChar (Char.ofNat 8) = ['\\', 'b'] from by decide, List.cons_append,
      List.cons_append, List.nil_append]
    exact parseStringBody_backslash _ _ _ (by simp [unescapeOne])
  by_cases h4 : c = Char.ofNat 9
  · subst h4
    rw [show encodeChar (Char.ofNat 9) = ['\\', 't'] from by decide, List.cons_append,
      List.cons_append, List.nil_append]
    exact parseStringBody_backslash _ _ _ (by simp [unescapeOne])
  by_cases h5 : c = Char.ofNat 10
  · subst h5
    rw [show encodeChar (Char.ofNat 10) = ['\\', 'n'] from by decide, List.cons_append,
      List.cons_append, List.nil_append]
    exact parseStringBody_backslash _ _ _ (by simp [unescapeOne])
  by_cases h6 : c = Char.ofNat 12
  · subst h6
    rw [show encodeChar (Char.ofNat 12) = ['\\', 'f'] from by decide, List.cons_append,
      List.cons_append, List.nil_append]
    exact parseStringBody_backslash _ _ _ (by simp [unescapeOne])
  by_cases h7 : c = Char.ofNat 13
  · subst h7
    rw [show encodeChar (Char.ofNat 13) = ['\\', 'r'] from by decide, List.cons_append,
      List.cons_append, List.nil_append]
    exact parseStringBody_backslash _ _ _ (by simp [unescapeOne])
  by_cases h8 : c.toNat < 32
  · rw [show encodeChar c = ['\\', 'u', '0', '0', hexDigitChar (c.toNat / 16),
        hexDigitChar (c.toNat % 16)] from by
      simp only [encodeChar, if_neg h1, if_neg h2, if_neg h3, if_neg h4, if_neg h5, if_neg h6,
        if_neg h7, if_pos h8]]
    have hu : unescapeOne ('u' :: '0' :: '0' ::
        hexDigitChar (c.toNat / 16) :: hexDigitChar (c.toNat % 16) :: t) = some (c, t) := by
      have h0 : decodeHexDigit '0' = some 0 := by decide
      have hA := decodeHexDigit_hexDigitChar (c.toNat / 16) (by omega)
      have hB := decodeHexDigit_hexDigitChar (c.toNat % 16) (by omega)
      simp only [unescapeOne, h0, hA, hB]
      have hval : 4096 * 0 + 256 * 0 + 16 * (c.toNat / 16) + c.toNat % 16 = c.toNat := by omega
      rw [hval, char_ofNat_toNat h8]
      simp
    rw [List.cons_append]
    exact parseStringBody_backslash _ _ _ (by simpa using hu)
  · rw [show encodeChar c = [c] from by
      simp only [encodeChar, if_neg h1, if_neg h2, if_neg h3, if_neg h4, if_neg h5, if_neg h6,
        if_neg h7, if_neg h8]]
    rw [List.cons_append, List.nil_append]
    exact parseStringBody_normal c _ h1 h2

/-- Parsing the escape-encoding of a whole string, followed by its closing
quote, recovers the string. -/
theorem parseStringBody_encodeStringChars (s : List Char) (t : List Char) :
    parseStringBody (encodeStringChars s ++ '"' :: t) = some (s, t) := by
  induction s with
  | nil => simpa [encodeStringChars] using parseStringBody_quote t
  | cons c cs ih =>
    simp only [encodeStringChars, List.append_assoc]
    rw [parseStringBody_encodeChar c (encodeStringChars cs ++ '"' :: t), ih]
    rfl

/-- Parse one or more comma-separated JSON string literals followed by the
closing bracket of the array, returning the strings and the remaining
input. -/
def parseArrayItems : List Char → Option (List String × List Char)
  | [] => none
  | c :: r =>
    if c = '"' then
      match h : parseStringBody r with
      | none => none
      | some (s, r2) =>
        match r2 with
        | ']' :: r3 => some ([String.mk s], r3)
        | ',' :: r3 => (parseArrayItems r3).map (fun p => (String.mk s :: p.1, p.2))
        | _ => none
    else none
termination_by l => l.length
decreasing_by
  have := parseStringBody_length h
  simp only [List.length_cons] at *
  omega

/-- Model of `JSON.parse` restricted to the canonical serialization of an
array of strings; any other text is a parse failure (`none`). -/
def jsonParseStrArray (t : String) : Option (List String) :=
  match t.data with
  | '[' :: r =>
    match r with
    | [']'] => some []
    | _ =>
      match parseArrayItems r with
      | some (ss, []) => some ss
      | _ => none
  | _ => none

/-- `String.mk` undoes `String.data`. -/
theorem stringMk_data (s : String) : String.mk s.data = s := rfl

theorem parseArrayItems_itemsChars (x : String) (ys : List String) :
    parseArrayItems (itemsChars x ys) = some (x :: ys, []) := by
  induction ys generalizing x with
  | nil =>
    simp only [itemsChars, parseArrayItems]
    split
    · split
      · rename_i heq
        rw [parseStringBody_encodeStringChars] at heq
        simp at heq
      · rename_i s r2 heq
        rw [parseStringBody_encodeStringChars] at heq
        injection heq with heq
        injection heq with hs hr
        subst hs
        subst hr
        simp [stringMk_data]
    · rename_i heq
      exact absurd trivial heq
  | cons y ys ih =>
    simp only [itemsChars, parseArrayItems]
    split
    · split
      · rename_i heq
        rw [parseStringBody_encodeStringChars] at heq
        simp at heq
      · rename_i s r2 heq
        rw [parseStringBody_encodeStringChars] at heq
        injection heq with heq
        injection heq with hs hr
        subst hs
        subst hr
        simp [ih y, stringMk_data]
    · rename_i heq
      exact absurd trivial heq

/-- `itemsChars` always begins with a quote character. -/
theorem itemsChars_head (x : String) (ys : List String) :
    ∃ t, itemsChars x ys = '"' :: t := by
  cases ys <;> simp [itemsChars]

/-- Round trip, list form: parsing the canonical serialization of an array
of strings recovers the array. -/
theorem jsonParseStrArray_stringify (xs : List String) :
    jsonParseStrArray (jsonStringifyStrArray xs) = some xs := by
  match xs with
  | [] => decide
  | x :: ys =>
    obtain ⟨t, ht⟩ := itemsChars_head x ys
    show jsonParseStrArray (String.mk ('[' :: itemsChars x ys)) = some (x :: ys)
    simp only [jsonParseStrArray]
    rw [ht]
    rw [← ht, parseArrayItems_itemsChars]
    rw [ht]
    simp

/-! ## Model of `bcrypt`

`bcrypt.hash(password, saltRounds)` is modelled as a deterministic
injective-by-construction tagging of the password; the random salt is
elided (both call sites in the code use `saltRounds = 10`).
`bcrypt.compare(password, hash)` succeeds exactly when the hash is the
hash of the password. -/

/-- Model of `bcrypt.hash`. -/
def bcryptHash (password : String) (saltRounds : Nat) : String :=
  "$2b$" ++ toString saltRounds ++ "$" ++ password

/-- Model of `bcrypt.compare`. -/
def bcryptCompare (password hash : String) : Bool :=
  hash == bcryptHash password 10

/-! ## Model of `jsonwebtoken`

A signed token is modelled as a record carrying its payload, issue and
expiry times, and the signing secret; cryptographic unforgeability is out
of scope, so "the signature checks out under `secret`" is modelled as
"the token was signed with `secret`". `jwt.verify` fails on a secret
mismatch or when the clock has reached `exp` (the library treats a token
as expired as soon as `now >= exp`). -/

/-- Default of `process.env.JWT_SECRET` in both `authMiddleware.js` and
`adminController.js`. -/
def SECRET_KEY : String := "korelium"

/-- The claims the code signs: `{ adminId: admin.id, username: admin.username }`. -/
structure JwtPayload where
  adminId : Nat
  username : String
  deriving DecidableEq, Repr

/-- Model of a signed JWT. -/
structure JwtToken where
  payload : JwtPayload
  iat : Nat
  exp : Nat
  secret : String
  deriving DecidableEq, Repr

/-- Model of `jwt.sign(payload, secret, { expiresIn })` at time `now`
(`expiresIn: '1h'` is 3600 seconds). -/
def jwtSign (payload : JwtPayload) (secret : String) (now lifetime : Nat) : JwtToken :=
  { payload := payload, iat := now, exp := now + lifetime, secret := secret }

/-- Model of `jwt.verify(token, secret)` evaluated at time `now`. -/
def jwtVerify (token : JwtToken) (secret : String) (now : Nat) : Option JwtPayload :=
  if token.secret = secret ∧ now < token.exp then some token.payload else none

/-! ## Auth Gate: `middleware/authMiddleware.js` -/

/-- The token the middleware extracts:
`authHeader && authHeader.split(' ')[1]`, so `none` when the header is
absent, when the split has no second element, or (conflating the two
falsy cases, which the middleware cannot distinguish) when the header is
itself the empty string. -/
def headerToken (authHeader : Option String) : Option String :=
  match authHeader with
  | none => none
  | some h => ((jsSplitChar ' ' h.data)[1]?).map String.mk

/-- Outcome of the middleware: an own response, or control passed to the
next handler with the decoded payload attached as `req.user`. -/
inductive GateResult where
  | reject (status : Nat) (message : String)
  | proceed (user : JwtPayload)
  deriving DecidableEq, Repr

/-- `authenticateToken` from `middleware/authMiddleware.js`, parametrized
by the verification function so that both its branches can be stated. -/
def authenticateToken (verify : String → Option JwtPayload) (authHeader : Option String) :
    GateResult :=
  match headerToken authHeader with
  | none => .reject 401 "Access denied. No token provided."
  | some t =>
    if t = "" then .reject 401 "Access denied. No token provided."
    else
      match verify t with
      | none => .reject 403 "Invalid or expired token."
      | some decoded => .proceed decoded

/-- Express dispatch of a protected route
(`router.get('/', authenticateToken, handler)`): the middleware runs
first; the handler runs, once, only when the middleware calls `next()`.
The second component counts handler invocations. -/
def runProtected {ρ : Type} (verify : String → Option JwtPayload) (handler : JwtPayload → ρ)
    (authHeader : Option String) : Sum (Nat × String) ρ × Nat :=
  match authenticateToken verify authHeader with
  | .reject s m => (.inl (s, m), 0)
  | .proceed u => (.inr (handler u), 1)

/-! ## Credential store and `login` from `controllers/adminController.js` -/

/-- A persisted `Admin` record; `password` holds the bcrypt hash. -/
structure AdminRow where
  id : Nat
  username : String
  password : String
  deriving DecidableEq, Repr

/-- Response of the login handler. -/
inductive LoginResult where
  | err (status : Nat) (message : String)
  | ok (message username : String) (token : JwtToken)
  deriving DecidableEq, Repr

/-- `login` from `controllers/adminController.js`:
`Admin.findOne({ where: { username } })` is the first row with that exact
username; both failure branches respond 401 with the same message. -/
def login (store : List AdminRow) (username password : String) (now : Nat) : LoginResult :=
  match store.find? (fun a => a.username == username) with
  | none => .err 401 "Invalid username or password"
  | some admin =>
    if bcryptCompare password admin.password then
      .ok "Login successful" admin.username
        (jwtSign { adminId := admin.id, username := admin.username } SECRET_KEY now 3600)
    else .err 401 "Invalid username or password"

/-! ## Course repository rows

Only the columns the verified handlers inspect are modelled explicitly:
`id` and `createdAt` (never null), `title`, `category`, `image`, and the
two serialized-array text columns. The remaining scalar columns
(`slug`, `description`, `instructor`, ...) are carried through every
handler unchanged by an object spread and are elided. -/

structure CourseRow where
  id : Nat
  title : Option String
  category : Option String
  image : Option String
  tags : Option String
  whatYoullLearn : Option String
  createdAt : Nat
  deriving DecidableEq, Repr

/-- `v || '[]'`: the argument `JSON.parse` receives for `tags` in the
admin-file list handler, where null and the empty string are falsy. -/
def jsOrEmptyArr : Option String → String
  | none => "[]"
  | some s => if s = "" then "[]" else s

/-- `v ? JSON.parse(v) : []` under the enclosing try/catch: null and the
empty string give `[]`; text that fails to parse throws, which the
handler turns into a 500 "Server error". -/
def parseStoredArrayField : Option String → Except String (List String)
  | none => .ok []
  | some s =>
    if s = "" then .ok []
    else
      match jsonParseStrArray s with
      | some xs => .ok xs
      | none => .error "Server error"

/-- `JSON.parse(course.tags || '[]')` under the enclosing try/catch. -/
def parseTagsAdmin (v : Option String) : Except String (List String) :=
  match jsonParseStrArray (jsOrEmptyArr v) with
  | some xs => .ok xs
  | none => .error "Server error"

/-- `course.whatYoullLearn ? JSON.parse(course.whatYoullLearn) : null`
under the enclosing try/catch; note the null (not `[]`) default. -/
def parseWylAdmin : Option String → Except String (Option (List String))
  | none => .ok none
  | some s =>
    if s = "" then .ok none
    else
      match jsonParseStrArray s with
      | some xs => .ok (some xs)
      | none => .error "Server error"

/-- `array.map(cb)` for a callback that can throw: the first throw aborts
the whole map (and is caught by the handler's try/catch). -/
def mapExcept {α β : Type} (f : α → Except String β) : List α → Except String (List β)
  | [] => .ok []
  | a :: r =>
    match f a with
    | .error e => .error e
    | .ok b =>
      match mapExcept f r with
      | .error e => .error e
      | .ok bs => .ok (b :: bs)

/-- A course as the admin-file list handler returns it: `tags` decoded to
an array, `whatYoullLearn` decoded to an array or left as JS `null`
(modelled by `none`). -/
structure AdminCourseView where
  id : Nat
  title : Option String
  category : Option String
  image : Option String
  tags : List String
  whatYoullLearn : Option (List String)
  createdAt : Nat
  deriving DecidableEq, Repr

/-- One element of the `courses.map(...)` in `getAllCourses` of the admin
controller file (lines 42-58). -/
def adminParseRow (row : CourseRow) : Except String AdminCourseView :=
  match parseTagsAdmin row.tags with
  | .error e => .error e
  | .ok tags =>
    match parseWylAdmin row.whatYoullLearn with
    | .error e => .error e
    | .ok wyl =>
      .ok { id := row.id, title := row.title, category := row.category, image := row.image,
            tags := tags, whatYoullLearn := wyl, createdAt := row.createdAt }

/-- `getAllCourses` of the admin controller file: `Course.findAll()` with
no options, then the parse map; any parse throw is caught as a 500. -/
def getAllCourses (store : List CourseRow) : Except String (List AdminCourseView) :=
  mapExcept adminParseRow store

/-- A course as the public handlers return it: both array fields decoded,
defaulting to `[]` when the stored value is falsy. -/
structure PublicCourseView where
  id : Nat
  title : Option String
  category : Option String
  image : Option String
  tags : List String
  whatYoullLearn : List String
  createdAt : Nat
  deriving DecidableEq, Repr

/-- One element of the `courses.map(...)` shared by
`routes/publicRoutes.js` and `controllers/publicController.js`. -/
def publicParseRow (row : CourseRow) : Except String PublicCourseView :=
  match parseStoredArrayField row.tags with
  | .error e => .error e
  | .ok tags =>
    match parseStoredArrayField row.whatYoullLearn with
    | .error e => .error e
    | .ok wyl =>
      .ok { id := row.id, title := row.title, category := row.category, image := row.image,
            tags := tags, whatYoullLearn := wyl, createdAt := row.createdAt }

/-- The inline `GET /courses` handler of `routes/publicRoutes.js`, mounted
at `/public` by `server.js`: `Course.findAll()` with no options — no
category filter, no ordering clause, and no limit — then the parse map. -/
def publicRoutesCourses (store : List CourseRow) : Except String (List PublicCourseView) :=
  mapExcept publicParseRow store

/-! ## Model of `Course.findAll({ where, order, limit })`

The SQL engine's guarantees are modelled as: filter by the where clause,
sort by the order clause (a stable insertion sort — SQL promises no
particular tie order, and this choice fixes one), then apply the limit.
Ordering is modelled for the non-null numeric columns the spec mentions
(`createdAt`, `id`); naming any other column in `order` makes the ORM
reject the query, surfacing as the handler's 500. -/

/-- Insert into a sorted list, keeping earlier elements first on ties. -/
def insertLe {α : Type} (le : α → α → Bool) (a : α) : List α → List α
  | [] => [a]
  | b :: r => if le a b then a :: b :: r else b :: insertLe le a r

/-- Insertion sort with a boolean comparison. -/
def sortLe {α : Type} (le : α → α → Bool) : List α → List α
  | [] => []
  | a :: r => insertLe le a (sortLe le r)

/-- The comparison a sequelize `order: [[field, direction]]` clause
induces on rows, given the column key. -/
def rowLe (key : CourseRow → Nat) (descending : Bool) (a b : CourseRow) : Bool :=
  if descending then key b ≤ key a else key a ≤ key b

/-- Sortable columns of the model: the key function, when the named
column is one the model orders by. -/
def colKey (field : String) : Option (CourseRow → Nat) :=
  if field = "createdAt" then some (fun r => r.createdAt)
  else if field = "id" then some (fun r => r.id)
  else none

/-- `Course.findAll({ where, order, limit })`. The where clause is an
optional exact-match condition on `category`; `direction` must be the
text `ASC` or `DESC`. -/
def findAllWith (category : Option String) (field direction : String) (limit : Option Nat)
    (store : List CourseRow) : Except String (List CourseRow) :=
  match colKey field with
  | none => .error "Server error"
  | some key =>
    match (if direction = "ASC" then some false
           else if direction = "DESC" then some true else none) with
    | none => .error "Server error"
    | some descending =>
      let filtered := match category with
        | none => store
        | some c => store.filter (fun r => r.category == some c)
      let sorted := sortLe (rowLe key descending) filtered
      .ok (match limit with | none => sorted | some n => sorted.take n)

/-- Model of `String.prototype.toUpperCase` (ASCII, which is all the
handler compares against). -/
def jsToUpperCase (s : String) : String := String.mk (s.data.map Char.toUpper)

/-- The query string of the list request:
`const { category, sortBy = 'createdAt', sortOrder = 'DESC' } = req.query`
(the defaults apply only to absent parameters). -/
structure CourseQuery where
  category : Option String
  sortBy : Option String
  sortOrder : Option String
  deriving DecidableEq, Repr

/-- `getAllCourses` from `controllers/publicController.js`: category
filter dropped when the parameter is falsy (absent or empty), dynamic
sort defaulting to `createdAt DESC`, `limit: 10`, then the parse map. -/
def publicControllerGetAllCourses (store : List CourseRow) (q : CourseQuery) :
    Except String (List PublicCourseView) :=
  let whereCat : Option String := match q.category with
    | none => none
    | some c => if c = "" then none else some c
  match findAllWith whereCat (q.sortBy.getD "createdAt")
      (jsToUpperCase (q.sortOrder.getD "DESC")) (some 10) store with
  | .error e => .error e
  | .ok rows => mapExcept publicParseRow rows

/-! ## `createCourse` from the course controller file (lines 80-138) -/

/-- The shapes the body parser can deliver for `tags` /
`whatYoullLearn`: absent, JS null, text, or an array of strings (the only
array shape the data model admits for these fields). -/
inductive ArrayFieldInput where
  | absent
  | null
  | str (s : String)
  | arr (xs : List String)
  deriving DecidableEq, Repr

/-- The field normalization of `createCourse`: non-empty text is parsed
(`catch` turns unparsable text into `[]`), and any resulting array is
re-serialized; a falsy or non-array value is stored as it came. -/
def normalizeArrayField : ArrayFieldInput → Option String
  | .absent => none
  | .null => none
  | .str s =>
    if s = "" then some ""
    else
      match jsonParseStrArray s with
      | some xs => some (jsonStringifyStrArray xs)
      | none => some (jsonStringifyStrArray [])
  | .arr xs => some (jsonStringifyStrArray xs)

/-- `req.file.path.replace(/\\/g, '/')`. -/
def normalizeWinPath (p : String) : String :=
  String.mk (p.data.map (fun c => if c = '\\' then '/' else c))

/-- The create request: body fields plus the optional uploaded file. -/
structure CreateCourseReq where
  title : Option String
  category : Option String
  tags : ArrayFieldInput
  whatYoullLearn : ArrayFieldInput
  file : Option String
  deriving DecidableEq, Repr

/-- The course object inside the 201 response, with both array fields
parsed back. -/
structure CreatedCourseView where
  id : Nat
  title : Option String
  category : Option String
  image : Option String
  tags : List String
  whatYoullLearn : List String
  createdAt : Nat
  deriving DecidableEq, Repr

/-- The 201 response of `createCourse`. -/
structure CreateCourseResponse where
  status : Nat
  message : String
  course : CreatedCourseView
  deriving DecidableEq, Repr

/-- `createCourse`: normalizes the two array fields and the upload path,
inserts the row (`Course.create` assigns the next id and `createdAt`),
then builds the response by parsing the stored text back. No field is
validated as required. The row insert happens before the response
parse-back, so the updated table is returned even when that parse-back
throws. -/
def createCourse (store : List CourseRow) (req : CreateCourseReq) (now : Nat) :
    List CourseRow × Except String CreateCourseResponse :=
  let imagePath := req.file.map normalizeWinPath
  let row : CourseRow := {
    id := store.length + 1,
    title := req.title,
    category := req.category,
    image := imagePath,
    tags := normalizeArrayField req.tags,
    whatYoullLearn := normalizeArrayField req.whatYoullLearn,
    createdAt := now }
  let store2 := store ++ [row]
  match parseStoredArrayField row.tags, parseStoredArrayField row.whatYoullLearn with
  | .ok tg, .ok wl =>
    (store2, .ok { status := 201, message := "Course created successfully",
                   course := { id := row.id, title := row.title, category := row.category,
                               image := row.image, tags := tg, whatYoullLearn := wl,
                               createdAt := row.createdAt } })
  | _, _ => (store2, .error "Server error")

/-! ## `createLocalAdmin` from `controllers/localAdminController.js` -/

/-- A persisted `localAdmin` record; `password` holds the bcrypt hash. -/
structure LocalAdminRow where
  id : Nat
  name : String
  email : String
  password : String
  role : String
  deriving DecidableEq, Repr

/-- The body of the 201 response: only id, email and role (the password
line is commented out in the source). -/
structure LocalAdminView where
  id : Nat
  email : String
  role : String
  deriving DecidableEq, Repr

/-- Response of the local-admin creation handler. -/
inductive LocalAdminResult where
  | err (status : Nat) (message : String)
  | created (status : Nat) (message : String) (localAdmin : LocalAdminView)
  deriving DecidableEq, Repr

/-- `createLocalAdmin`: 400 when any of the four body fields is falsy
(absent or empty), 409 when a row with the same email exists, otherwise
creates the row with the bcrypt hash of the password and responds 201
with only id, email and role. -/
def createLocalAdmin (store : List LocalAdminRow) (name email password role : Option String) :
    List LocalAdminRow × LocalAdminResult :=
  match name, email, password, role with
  | some nm, some em, some pw, some rl =>
    if nm = "" || em = "" || pw = "" || rl = "" then
      (store, .err 400 "All feilds are required")
    else
      match store.find? (fun a => a.email == em) with
      | some _ => (store, .err 409 "User already exisit   ")
      | none =>
        let row : LocalAdminRow := { id := store.length + 1, name := nm, email := em,
                                     password := bcryptHash pw 10, role := rl }
        (store ++ [row],
          .created 201 "Local Admin User created succesfully"
            { id := row.id, email := row.email, role := row.role })
  | _, _, _, _ => (store, .err 400 "All feilds are required")

/-! ## Lemmas about the helpers -/

theorem mapExcept_ok_iff {α β : Type} (f : α → Except String β) (l : List α) (out : List β) :
    mapExcept f l = .ok out ↔ List.Forall₂ (fun a b => f a = .ok b) l out := by
  induction l generalizing out with
  | nil =>
    constructor
    · intro h
      cases h
      exact List.Forall₂.nil
    · intro h
      cases h
      rfl
  | cons a r ih =>
    constructor
    · intro h
      simp only [mapExcept] at h
      cases hfa : f a with
      | error e => rw [hfa] at h; cases h
      | ok b =>
        rw [hfa] at h
        cases hfr : mapExcept f r with
        | error e => rw [hfr] at h; cases h
        | ok bs =>
          rw [hfr] at h
          cases h
          exact List.Forall₂.cons hfa ((ih bs).mp hfr)
    · intro h
      cases h with
      | cons hfa hrest =>
        rename_i b bs
        simp only [mapExcept, hfa, (ih bs).mpr hrest]

theorem mapExcept_error_mem {α β : Type} (f : α → Except String β) (l : List α) (e : String)
    (h : mapExcept f l = .error e) : ∃ a ∈ l, f a = .error e := by
  induction l with
  | nil => cases h
  | cons a r ih =>
    simp only [mapExcept] at h
    cases hfa : f a with
    | error e2 =>
      rw [hfa] at h
      cases h
      exact ⟨a, by simp, hfa⟩
    | ok b =>
      rw [hfa] at h
      cases hfr : mapExcept f r with
      | error e2 =>
        rw [hfr] at h
        cases h
        obtain ⟨x, hx, hfx⟩ := ih hfr
        exact ⟨x, by simp [hx], hfx⟩
      | ok bs => rw [hfr] at h; cases h

theorem mapExcept_error_all {α β : Type} (f : α → Except String β) (l : List α)
    (h1 : ∀ a ∈ l, ∀ e, f a = .error e → e = "Server error")
    (h2 : ∃ a ∈ l, ∃ e, f a = .error e) :
    mapExcept f l = .error "Server error" := by
  induction l with
  | nil => obtain ⟨a, ha, _⟩ := h2; cases ha
  | cons a r ih =>
    simp only [mapExcept]
    cases hfa : f a with
    | error e =>
      rw [h1 a (by simp) e hfa]
    | ok b =>
      obtain ⟨x, hx, e, hfx⟩ := h2
      rcases List.mem_cons.mp hx with hxa | hxr
      · subst hxa; rw [hfa] at hfx; cases hfx
      · rw [ih (fun y hy => h1 y (by simp [hy])) ⟨x, hxr, e, hfx⟩]

theorem insertLe_perm {α : Type} (le : α → α → Bool) (a : α) (l : List α) :
    (insertLe le a l).Perm (a :: l) := by
  induction l with
  | nil => simp [insertLe]
  | cons b r ih =>
    simp only [insertLe]
    split
    · exact List.Perm.refl _
    · exact (ih.cons b).trans (List.Perm.swap a b r)

theorem sortLe_perm {α : Type} (le : α → α → Bool) (l : List α) :
    (sortLe le l).Perm l := by
  induction l with
  | nil => simp [sortLe]
  | cons a r ih => exact (insertLe_perm le a (sortLe le r)).trans (ih.cons a)

theorem mem_insertLe {α : Type} (le : α → α → Bool) (a x : α) (l : List α) :
    x ∈ insertLe le a l ↔ x = a ∨ x ∈ l :=
  by simpa using (insertLe_perm le a l).mem_iff

theorem insertLe_pairwise {α : Type} (le : α → α → Bool)
    (htot : ∀ x y, le x y = true ∨ le y x = true)
    (htrans : ∀ x y z, le x y = true → le y z = true → le x z = true)
    (a : α) (l : List α) (h : l.Pairwise (fun x y => le x y = true)) :
    (insertLe le a l).Pairwise (fun x y => le x y = true) := by
  induction l with
  | nil => simp [insertLe]
  | cons b r ih =>
    simp only [insertLe]
    rcases List.pairwise_cons.mp h with ⟨hb, hr⟩
    split
    · rename_i hab
      refine List.pairwise_cons.mpr ⟨?_, h⟩
      intro y hy
      rcases List.mem_cons.mp hy with hyb | hyr
      · subst hyb; exact hab
      · exact htrans a b y hab (hb y hyr)
    · rename_i hab
      have hba : le b a = true := by
        rcases htot a b with hx | hx
        · exact absurd hx hab
        · exact hx
      refine List.pairwise_cons.mpr ⟨?_, ih hr⟩
      intro y hy
      rcases (mem_insertLe le a y r).mp hy with hya | hyr
      · subst hya; exact hba
      · exact hb y hyr

theorem sortLe_pairwise {α : Type} (le : α → α → Bool)
    (htot : ∀ x y, le x y = true ∨ le y x = true)
    (htrans : ∀ x y z, le x y = true → le y z = true → le x z = true)
    (l : List α) : (sortLe le l).Pairwise (fun x y => le x y = true) := by
  induction l with
  | nil => simp [sortLe]
  | cons a r ih => exact insertLe_pairwise le htot htrans a (sortLe le r) ih

theorem rowLe_total (key : CourseRow → Nat) (descending : Bool) (a b : CourseRow) :
    rowLe key descending a b = true ∨ rowLe key descending b a = true := by
  simp only [rowLe]
  cases descending <;> simp <;> omega

theorem rowLe_trans (key : CourseRow → Nat) (descending : Bool) (a b c : CourseRow)
    (h1 : rowLe key descending a b = true) (h2 : rowLe key descending b c = true) :
    rowLe key descending a c = true := by
  simp only [rowLe] at *
  cases descending <;> simp_all <;> omega

/-- The serialization of an array of strings is never the empty string. -/
theorem jsonStringifyStrArray_ne_empty (xs : List String) : jsonStringifyStrArray xs ≠ "" := by
  match xs with
  | [] => decide
  | x :: ys =>
    simp only [jsonStringifyStrArray]
    intro h
    have : ('[' :: itemsChars x ys) = ([] : List Char) := congrArg String.data h
    cases this

/-- Reading back a stored canonical serialization succeeds with the
original array. -/
theorem parseStoredArrayField_stringify (xs : List String) :
    parseStoredArrayField (some (jsonStringifyStrArray xs)) = .ok xs := by
  simp only [parseStoredArrayField]
  rw [if_neg (jsonStringifyStrArray_ne_empty xs), jsonParseStrArray_stringify]

/-- Whatever the request supplied for an array field, reading back what
`createCourse` stored never throws. -/
theorem parseStoredArrayField_normalize (inp : ArrayFieldInput) :
    ∃ xs, parseStoredArrayField (normalizeArrayField inp) = .ok xs := by
  match inp with
  | .absent => exact ⟨[], rfl⟩
  | .null => exact ⟨[], rfl⟩
  | .arr xs => exact ⟨xs, parseStoredArrayField_stringify xs⟩
  | .str s =>
    simp only [normalizeArrayField]
    by_cases hs : s = ""
    · rw [if_pos hs]; exact ⟨[], rfl⟩
    · rw [if_neg hs]
      cases hp : jsonParseStrArray s with
      | none => exact ⟨[], parseStoredArrayField_stringify []⟩
      | some xs => exact ⟨xs, parseStoredArrayField_stringify xs⟩

/-- Token extraction on a well-formed two-word header: the second word,
whatever the scheme. -/
theorem headerToken_two_words (scheme tok : String)
    (hs : ' ' ∉ scheme.data) (ht : ' ' ∉ tok.data) :
    headerToken (some (scheme ++ " " ++ tok)) = some tok := by
  simp only [headerToken]
  have hdata : (scheme ++ " " ++ tok).data = scheme.data ++ ' ' :: tok.data := by
    simp [String.data_append]
  rw [hdata, jsSplitChar_append_sep _ _ _ hs, jsSplitChar_no_sep _ _ ht]
  simp [stringMk_data]

/-- Token extraction on a single-word header: JS `split` yields one
fragment, indexing it at 1 gives `undefined`. -/
theorem headerToken_one_word (w : String) (hw : ' ' ∉ w.data) :
    headerToken (some w) = none := by
  simp only [headerToken]
  rw [jsSplitChar_no_sep _ _ hw]
  rfl

/-- Token extraction when the second word is empty (header ends at the
separator): the empty string, which is falsy. -/
theorem headerToken_trailing_sep (scheme : String) (hs : ' ' ∉ scheme.data) :
    headerToken (some (scheme ++ " ")) = some "" := by
  simp only [headerToken]
  have hdata : (scheme ++ " ").data = scheme.data ++ ' ' :: ([] : List Char) := by
    simp [String.data_append]
  rw [hdata, jsSplitChar_append_sep _ _ _ hs]
  rfl

/-- Token extraction when the second word is empty because two separators
are adjacent. -/
theorem headerToken_double_sep (scheme rest : String) (hs : ' ' ∉ scheme.data) :
    headerToken (some (scheme ++ " " ++ (" " ++ rest))) = some "" := by
  simp only [headerToken]
  have hdata : (scheme ++ " " ++ (" " ++ rest)).data =
      scheme.data ++ ' ' :: (' ' :: rest.data) := by
    simp [String.data_append]
  rw [hdata, jsSplitChar_append_sep _ _ _ hs]
  simp [jsSplitChar]

/-! ## The claims -/

/-- C1: on a protected route the Auth Gate is a three-way case split on
the Authorization header: no extractable token responds 401
"Access denied. No token provided." with the handler never invoked; a
token that fails verification responds 403 "Invalid or expired token."
with the handler never invoked; a verified token attaches the decoded
identity and invokes the downstream handler exactly once. The rejection
responses carry only a status and a message, so no course data is
returned on them. -/
theorem c1_auth_gate_three_way {ρ : Type} (verify : String → Option JwtPayload)
    (handler : JwtPayload → ρ) (authHeader : Option String) :
    ((headerToken authHeader = none ∨ headerToken authHeader = some "") →
      runProtected verify handler authHeader =
        (.inl (401, "Access denied. No token provided."), 0)) ∧
    (∀ t, headerToken authHeader = some t → t ≠ "" → verify t = none →
      runProtected verify handler authHeader =
        (.inl (403, "Invalid or expired token."), 0)) ∧
    (∀ t u, headerToken authHeader = some t → t ≠ "" → verify t = some u →
      runProtected verify handler authHeader = (.inr (handler u), 1)) := by
  refine ⟨?_, ?_, ?_⟩
  · rintro (h | h) <;> simp [runProtected, authenticateToken, h]
  · intro t h hne hv
    simp [runProtected, authenticateToken, h, hne, hv]
  · intro t u h hne hv
    simp [runProtected, authenticateToken, h, hne, hv]

/-- Witness for C1: the three branches at concrete headers. -/
theorem c1_auth_gate_three_way_witness :
    runProtected (fun _ => none) (fun u => u.adminId) none =
      (.inl (401, "Access denied. No token provided."), 0) ∧
    runProtected (fun _ => none) (fun u => u.adminId) (some "Bearer tok") =
      (.inl (403, "Invalid or expired token."), 0) ∧
    runProtected (fun t => if t = "tok" then some ⟨7, "pown"⟩ else none) (fun u => u.adminId)
      (some "Bearer tok") = (.inr 7, 1) :=
  ⟨(c1_auth_gate_three_way (fun _ => none) (fun u => u.adminId) none).1 (Or.inl rfl),
   (c1_auth_gate_three_way (fun _ => none) (fun u => u.adminId) (some "Bearer tok")).2.1
     "tok" (by decide) (by decide) rfl,
   (c1_auth_gate_three_way (fun t => if t = "tok" then some ⟨7, "pown"⟩ else none)
     (fun u => u.adminId) (some "Bearer tok")).2.2 "tok" ⟨7, "pown"⟩
     (by decide) (by decide) (by decide)⟩

/-- C2: every login with invalid credentials — the username absent from
the store, or present with a password that does not match the stored
hash — fails with status 401 and the one fixed message
"Invalid username or password", so the two failure runs are
observationally identical. -/
theorem c2_login_enumeration_resistant (store : List AdminRow) (u p : String) (now : Nat)
    (h : ∀ a ∈ store, a.username = u → bcryptCompare p a.password = false) :
    login store u p now = .err 401 "Invalid username or password" := by
  simp only [login]
  cases hf : store.find? (fun x => x.username == u) with
  | none => rfl
  | some a =>
    have hmem := List.mem_of_find?_eq_some hf
    have hpred := List.find?_some hf
    simp only [beq_iff_eq] at hpred
    simp [h a hmem hpred]

/-- Witness for C2: a wrong-username run and a wrong-password run against
the same seeded store produce the same 401 response. -/
theorem c2_login_enumeration_resistant_witness :
    login [⟨1, "pown", bcryptHash "1234" 10⟩] "alice" "1234" 0 =
      .err 401 "Invalid username or password" ∧
    login [⟨1, "pown", bcryptHash "1234" 10⟩] "pown" "wrong" 0 =
      .err 401 "Invalid username or password" :=
  ⟨c2_login_enumeration_resistant [⟨1, "pown", bcryptHash "1234" 10⟩] "alice" "1234" 0
     (by decide),
   c2_login_enumeration_resistant [⟨1, "pown", bcryptHash "1234" 10⟩] "pown" "wrong" 0
     (by decide)⟩

/-- C9 (implicit): the middleware takes the second space-separated word
of the header without checking the scheme word: any
`<scheme> <token>` header has its token verified regardless of the
scheme; a single-word header, a header ending at the separator, and a
header whose second word is empty are all rejected 401 as "no token
provided" rather than 403. -/
theorem c9_scheme_not_checked (verify : String → Option JwtPayload) (scheme tok : String)
    (hs : ' ' ∉ scheme.data) (ht : ' ' ∉ tok.data) (hne : tok ≠ "") :
    (authenticateToken verify (some (scheme ++ " " ++ tok)) =
      (match verify tok with
       | none => GateResult.reject 403 "Invalid or expired token."
       | some u => GateResult.proceed u)) ∧
    (∀ w : String, ' ' ∉ w.data →
      authenticateToken verify (some w) = .reject 401 "Access denied. No token provided.") ∧
    (authenticateToken verify (some (scheme ++ " ")) =
      .reject 401 "Access denied. No token provided.") ∧
    (∀ rest : String, authenticateToken verify (some (scheme ++ " " ++ (" " ++ rest))) =
      .reject 401 "Access denied. No token provided.") := by
  refine ⟨?_, ?_, ?_, ?_⟩
  · simp [authenticateToken, headerToken_two_words scheme tok hs ht, hne]
  · intro w hw
    simp [authenticateToken, headerToken_one_word w hw]
  · simp [authenticateToken, headerToken_trailing_sep scheme hs]
  · intro rest
    simp [authenticateToken, headerToken_double_sep scheme rest hs]

/-- Witness for C9: a non-Bearer scheme is verified anyway; one-word and
empty-second-word headers are rejected 401. -/
theorem c9_scheme_not_checked_witness :
    authenticateToken (fun _ => none) (some "Basic abc") =
      .reject 403 "Invalid or expired token." ∧
    authenticateToken (fun _ => none) (some "abc") =
      .reject 401 "Access denied. No token provided." ∧
    authenticateToken (fun _ => none) (some "Basic ") =
      .reject 401 "Access denied. No token provided." ∧
    authenticateToken (fun _ => none) (some ("Basic " ++ (" " ++ "x"))) =
      .reject 401 "Access denied. No token provided." := by
  have h := c9_scheme_not_checked (fun _ => none) "Basic" "abc"
    (by decide) (by decide) (by decide)
  exact ⟨h.1, h.2.1 "abc" (by decide), h.2.2.1, h.2.2.2 "x"⟩

/-- C8: a successful login issues a signed token whose payload is exactly
the admin's id and username, with issue time `now` and a fixed one-hour
(3600 s) lifetime; `jwtVerify` under the service secret accepts that token
at every time before expiry, yielding the embedded identity, and rejects
it at every time from expiry on. -/
theorem c8_login_token_lifecycle (store : List AdminRow) (u p : String) (now : Nat)
    (admin : AdminRow) (hfind : store.find? (fun a => a.username == u) = some admin)
    (hpw : bcryptCompare p admin.password = true) :
    ∃ tok, login store u p now = .ok "Login successful" admin.username tok ∧
      tok.payload = { adminId := admin.id, username := admin.username } ∧
      tok.iat = now ∧ tok.exp = now + 3600 ∧
      (∀ t, t < now + 3600 → jwtVerify tok SECRET_KEY t =
        some { adminId := admin.id, username := admin.username }) ∧
      (∀ t, now + 3600 ≤ t → jwtVerify tok SECRET_KEY t = none) := by
  refine ⟨jwtSign { adminId := admin.id, username := admin.username } SECRET_KEY now 3600,
    ?_, ?_, ?_, ?_, ?_, ?_⟩
  · simp [login, hfind, hpw]
  · rfl
  · rfl
  · rfl
  · intro t htl
    exact if_pos ⟨rfl, htl⟩
  · intro t htl
    refine if_neg ?_
    rintro ⟨-, hlt⟩
    have hexp : (jwtSign { adminId := admin.id, username := admin.username }
        SECRET_KEY now 3600).exp = now + 3600 := rfl
    omega

/-- Witness for C8: the seeded admin logs in at time 0; the token
verifies at second 3599 and is rejected at second 3600. -/
theorem c8_login_token_lifecycle_witness :
    ∃ tok, login [⟨1, "pown", bcryptHash "1234" 10⟩] "pown" "1234" 0 =
        .ok "Login successful" "pown" tok ∧
      jwtVerify tok SECRET_KEY 3599 = some { adminId := 1, username := "pown" } ∧
      jwtVerify tok SECRET_KEY 3600 = none := by
  obtain ⟨tok, hlogin, hpay, hiat, hexp, hok, hno⟩ :=
    c8_login_token_lifecycle [⟨1, "pown", bcryptHash "1234" 10⟩] "pown" "1234" 0
      ⟨1, "pown", bcryptHash "1234" 10⟩ (by decide) (by decide)
  exact ⟨tok, hlogin, hok 3599 (by decide), hno 3600 (by decide)⟩

/-- C10 (implicit): the local-admin creation endpoint responds 400 when
any of name, email, password, role is missing (leaving the store
unchanged), 409 when a local admin with the given email exists (leaving
the store unchanged), and otherwise stores the bcrypt hash of the
password — which is never the plaintext — and responds 201 with a body
containing only id, email and role (`LocalAdminView` has no password
field). -/
theorem c10_local_admin_create (store : List LocalAdminRow)
    (name email password role : Option String) :
    ((name = none ∨ email = none ∨ password = none ∨ role = none) →
      createLocalAdmin store name email password role =
        (store, .err 400 "All feilds are required")) ∧
    (∀ nm em pw rl, name = some nm → email = some em → password = some pw → role = some rl →
      nm ≠ "" → em ≠ "" → pw ≠ "" → rl ≠ "" →
      (∀ a0, store.find? (fun a => a.email == em) = some a0 →
        createLocalAdmin store name email password role =
          (store, .err 409 "User already exisit   ")) ∧
      (store.find? (fun a => a.email == em) = none →
        createLocalAdmin store name email password role =
          (store ++ [{ id := store.length + 1, name := nm, email := em,
                       password := bcryptHash pw 10, role := rl }],
           .created 201 "Local Admin User created succesfully"
             { id := store.length + 1, email := em, role := rl }) ∧
        bcryptHash pw 10 ≠ pw)) := by
  constructor
  · intro h
    cases name <;> cases email <;> cases password <;> cases role <;>
      (try rfl) <;> rcases h with h | h | h | h <;> simp at h
  · intro nm em pw rl hn he hp hr hnm hem hpw hrl
    subst hn; subst he; subst hp; subst hr
    constructor
    · intro a0 hfind
      simp [createLocalAdmin, hnm, hem, hpw, hrl, hfind]
    · intro hfind
      refine ⟨by simp [createLocalAdmin, hnm, hem, hpw, hrl, hfind], ?_⟩
      intro hcon
      have hlen := congrArg String.length hcon
      simp only [bcryptHash, String.length_append] at hlen
      have h4 : "$2b$".length = 4 := by decide
      have h2 : (toString 10).length = 2 := by decide
      have h1 : "$".length = 1 := by decide
      rw [h4, h2, h1] at hlen
      omega

/-- Witness for C10: the three outcomes at concrete inputs. -/
theorem c10_local_admin_create_witness :
    createLocalAdmin [] none (some "a@b") (some "pw") (some "admin") =
      ([], .err 400 "All feilds are required") ∧
    createLocalAdmin [⟨1, "n", "a@b", bcryptHash "x" 10, "admin"⟩]
        (some "m") (some "a@b") (some "pw") (some "admin") =
      ([⟨1, "n", "a@b", bcryptHash "x" 10, "admin"⟩], .err 409 "User already exisit   ") ∧
    createLocalAdmin [] (some "m") (some "a@b") (some "pw") (some "admin") =
      ([{ id := 1, name := "m", email := "a@b", password := bcryptHash "pw" 10,
          role := "admin" }],
       .created 201 "Local Admin User created succesfully"
         { id := 1, email := "a@b", role := "admin" }) := by
  refine ⟨(c10_local_admin_create [] none (some "a@b") (some "pw") (some "admin")).1
    (Or.inl rfl), ?_, ?_⟩
  · exact ((c10_local_admin_create [⟨1, "n", "a@b", bcryptHash "x" 10, "admin"⟩]
      (some "m") (some "a@b") (some "pw") (some "admin")).2 "m" "a@b" "pw" "admin"
      rfl rfl rfl rfl (by decide) (by decide) (by decide) (by decide)).1
      ⟨1, "n", "a@b", bcryptHash "x" 10, "admin"⟩ (by decide)
  · exact (((c10_local_admin_create [] (some "m") (some "a@b") (some "pw") (some "admin")).2
      "m" "a@b" "pw" "admin" rfl rfl rfl rfl (by decide) (by decide) (by decide)
      (by decide)).2 rfl).1

/-- C3: for every array of strings supplied for `tags`/`whatYoullLearn`
— as an array or as its serialized JSON text — serializing it for
storage and then deserializing it for the response yields the original
array, and null/absent input deserializes to `[]`; consequently a create
request whose `tags` is the array `xs` answers with `course.tags = xs`. -/
theorem c3_array_field_round_trip (xs : List String) :
    parseStoredArrayField (normalizeArrayField (.arr xs)) = .ok xs ∧
    parseStoredArrayField (normalizeArrayField (.str (jsonStringifyStrArray xs))) = .ok xs ∧
    parseStoredArrayField (normalizeArrayField .null) = .ok [] ∧
    parseStoredArrayField (normalizeArrayField .absent) = .ok [] ∧
    (∀ store title cat file wylInp now, ∃ resp,
      (createCourse store { title := title, category := cat, tags := .arr xs,
                            whatYoullLearn := wylInp, file := file } now).2 = .ok resp ∧
      resp.course.tags = xs) := by
  have harr : parseStoredArrayField (normalizeArrayField (.arr xs)) = .ok xs :=
    parseStoredArrayField_stringify xs
  refine ⟨harr, ?_, rfl, rfl, ?_⟩
  · simp only [normalizeArrayField]
    rw [if_neg (jsonStringifyStrArray_ne_empty xs), jsonParseStrArray_stringify]
    exact parseStoredArrayField_stringify xs
  · intro store title cat file wylInp now
    obtain ⟨wl, hwl⟩ := parseStoredArrayField_normalize wylInp
    refine ⟨{ status := 201, message := "Course created successfully",
              course := { id := store.length + 1, title := title, category := cat,
                          image := file.map normalizeWinPath, tags := xs,
                          whatYoullLearn := wl, createdAt := now } }, ?_, rfl⟩
    simp [createCourse, harr, hwl]

/-- C6 counterexample: a create request with no `title` is not rejected
400 — it creates a row (with null title) and answers 201. -/
theorem c6_counterexample :
    (createCourse [] { title := none, category := none, tags := .absent,
                       whatYoullLearn := .absent, file := none } 0).1 =
      [{ id := 1, title := none, category := none, image := none, tags := none,
         whatYoullLearn := none, createdAt := 0 }] ∧
    (createCourse [] { title := none, category := none, tags := .absent,
                       whatYoullLearn := .absent, file := none } 0).2 =
      .ok { status := 201, message := "Course created successfully",
            course := { id := 1, title := none, category := none, image := none, tags := [],
                        whatYoullLearn := [], createdAt := 0 } } := by
  constructor <;> rfl

/-- C6 amended: `createCourse` performs no required-field validation: a
request with `title` missing still inserts a row (with null title) and
responds 201. -/
theorem c6_amended_no_title_validation (store : List CourseRow) (req : CreateCourseReq)
    (now : Nat) (h : req.title = none) :
    ∃ row resp, (createCourse store req now).1 = store ++ [row] ∧ row.title = none ∧
      (createCourse store req now).2 = .ok resp ∧ resp.status = 201 := by
  obtain ⟨tg, htg⟩ := parseStoredArrayField_normalize req.tags
  obtain ⟨wl, hwl⟩ := parseStoredArrayField_normalize req.whatYoullLearn
  refine ⟨{ id := store.length + 1, title := req.title, category := req.category,
            image := req.file.map normalizeWinPath, tags := normalizeArrayField req.tags,
            whatYoullLearn := normalizeArrayField req.whatYoullLearn, createdAt := now },
          { status := 201, message := "Course created successfully",
            course := { id := store.length + 1, title := req.title, category := req.category,
                        image := req.file.map normalizeWinPath, tags := tg,
                        whatYoullLearn := wl, createdAt := now } },
          ?_, h, ?_, rfl⟩
  · simp [createCourse, htg, hwl]
  · simp [createCourse, htg, hwl]

/-- Witness for C6 amended: the concrete no-title request. -/
theorem c6_amended_no_title_validation_witness :
    ∃ row resp,
      (createCourse [] { title := none, category := some "web", tags := .absent,
                         whatYoullLearn := .absent, file := none } 5).1 = [] ++ [row] ∧
      row.title = none ∧
      (createCourse [] { title := none, category := some "web", tags := .absent,
                         whatYoullLearn := .absent, file := none } 5).2 = .ok resp ∧
      resp.status = 201 :=
  c6_amended_no_title_validation [] { title := none, category := some "web", tags := .absent,
                                      whatYoullLearn := .absent, file := none } 5 rfl

/-- `parseTagsAdmin` only ever throws the generic 500 message. -/
theorem parseTagsAdmin_error (v : Option String) (e : String)
    (h : parseTagsAdmin v = .error e) : e = "Server error" := by
  simp only [parseTagsAdmin] at h
  split at h
  · cases h
  · injection h with h
    exact h.symm

/-- `parseWylAdmin` only ever throws the generic 500 message. -/
theorem parseWylAdmin_error (v : Option String) (e : String)
    (h : parseWylAdmin v = .error e) : e = "Server error" := by
  cases v with
  | none => cases h
  | some s =>
    simp only [parseWylAdmin] at h
    split at h
    · cases h
    · split at h
      · cases h
      · injection h with h
        exact h.symm

/-- Every error `adminParseRow` produces is the generic 500 message. -/
theorem adminParseRow_error_server (row : CourseRow) (e : String)
    (h : adminParseRow row = .error e) : e = "Server error" := by
  simp only [adminParseRow] at h
  split at h
  · rename_i e2 heq
    injection h with h
    subst h
    exact parseTagsAdmin_error _ _ heq
  · split at h
    · rename_i e2 heq
      injection h with h
      subst h
      exact parseWylAdmin_error _ _ heq
    · cases h

/-- A row whose stored `tags` text (after the `|| '[]'` default) or
non-falsy `whatYoullLearn` text fails to parse makes `adminParseRow`
throw. -/
theorem adminParseRow_fails (row : CourseRow)
    (h : jsonParseStrArray (jsOrEmptyArr row.tags) = none ∨
      (∃ s, row.whatYoullLearn = some s ∧ s ≠ "" ∧ jsonParseStrArray s = none)) :
    ∃ e, adminParseRow row = .error e := by
  rcases h with h | ⟨s, hs, hne, hp⟩
  · exact ⟨"Server error", by simp only [adminParseRow, parseTagsAdmin, h]⟩
  · simp only [adminParseRow]
    cases ht : parseTagsAdmin row.tags with
    | error e => exact ⟨e, rfl⟩
    | ok tg =>
      refine ⟨"Server error", ?_⟩
      simp only [parseWylAdmin, hs]
      rw [if_neg hne, hp]

/-- The per-row success behaviour of the admin list: `tags` parsed (with
`[]` substituted for falsy stored text), `whatYoullLearn` parsed or JS
null. -/
theorem adminParseRow_ok_of (row : CourseRow)
    (h1 : (jsonParseStrArray (jsOrEmptyArr row.tags)).isSome)
    (h2 : ∀ s, row.whatYoullLearn = some s → s ≠ "" → (jsonParseStrArray s).isSome) :
    ∃ v, adminParseRow row = .ok v ∧
      v.tags = (jsonParseStrArray (jsOrEmptyArr row.tags)).getD [] ∧
      v.whatYoullLearn = (match row.whatYoullLearn with
        | none => none
        | some s => if s = "" then none else jsonParseStrArray s) := by
  obtain ⟨xs, hxs⟩ := Option.isSome_iff_exists.mp h1
  have hmk : ∀ w, parseWylAdmin row.whatYoullLearn = .ok w →
      adminParseRow row = .ok { id := row.id, title := row.title, category := row.category,
                                image := row.image, tags := xs, whatYoullLearn := w,
                                createdAt := row.createdAt } := by
    intro w hw2
    simp only [adminParseRow, parseTagsAdmin, hxs, hw2]
  cases hw : row.whatYoullLearn with
  | none =>
    refine ⟨{ id := row.id, title := row.title, category := row.category, image := row.image,
              tags := xs, whatYoullLearn := none, createdAt := row.createdAt },
            hmk none (by simp [parseWylAdmin, hw]), by simp [hxs], by simp⟩
  | some s =>
    by_cases hse : s = ""
    · subst hse
      refine ⟨{ id := row.id, title := row.title, category := row.category, image := row.image,
                tags := xs, whatYoullLearn := none, createdAt := row.createdAt },
              hmk none (by simp [parseWylAdmin, hw]), by simp [hxs], by simp⟩
    · obtain ⟨ys, hys⟩ := Option.isSome_iff_exists.mp (h2 s hw hse)
      refine ⟨{ id := row.id, title := row.title, category := row.category, image := row.image,
                tags := xs, whatYoullLearn := some ys, createdAt := row.createdAt },
              hmk (some ys) ?_, by simp [hxs], by simp [hse, hys]⟩
      simp only [parseWylAdmin, hw]
      rw [if_neg hse, hys]

/-- The per-row success behaviour of the public parse map: both fields
default to `[]` on falsy stored text. -/
theorem publicParseRow_ok_of (row : CourseRow)
    (h1 : ∀ s, row.tags = some s → s ≠ "" → (jsonParseStrArray s).isSome)
    (h2 : ∀ s, row.whatYoullLearn = some s → s ≠ "" → (jsonParseStrArray s).isSome) :
    ∃ v, publicParseRow row = .ok v ∧
      (row.tags = none → v.tags = []) ∧
      (row.whatYoullLearn = none → v.whatYoullLearn = []) := by
  have htags : ∃ tg, parseStoredArrayField row.tags = .ok tg ∧ (row.tags = none → tg = []) := by
    cases ht : row.tags with
    | none => exact ⟨[], rfl, fun _ => rfl⟩
    | some s =>
      by_cases hse : s = ""
      · subst hse
        exact ⟨[], by simp [parseStoredArrayField], fun h => by cases h⟩
      · obtain ⟨xs, hxs⟩ := Option.isSome_iff_exists.mp (h1 s ht hse)
        refine ⟨xs, ?_, fun h => by cases h⟩
        simp only [parseStoredArrayField]
        rw [if_neg hse, hxs]
  have hwyl : ∃ wl, parseStoredArrayField row.whatYoullLearn = .ok wl ∧
      (row.whatYoullLearn = none → wl = []) := by
    cases ht : row.whatYoullLearn with
    | none => exact ⟨[], rfl, fun _ => rfl⟩
    | some s =>
      by_cases hse : s = ""
      · subst hse
        exact ⟨[], by simp [parseStoredArrayField], fun h => by cases h⟩
      · obtain ⟨xs, hxs⟩ := Option.isSome_iff_exists.mp (h2 s ht hse)
        refine ⟨xs, ?_, fun h => by cases h⟩
        simp only [parseStoredArrayField]
        rw [if_neg hse, hxs]
  obtain ⟨tg, htg, htg0⟩ := htags
  obtain ⟨wl, hwl, hwl0⟩ := hwyl
  refine ⟨{ id := row.id, title := row.title, category := row.category, image := row.image,
            tags := tg, whatYoullLearn := wl, createdAt := row.createdAt },
          by simp only [publicParseRow, htg, hwl],
          fun h => htg0 h, fun h => hwl0 h⟩

/-- C4 counterexample: a row with null `whatYoullLearn` is listed with JS
null (not `[]`) by the admin-file list handler, and a row with
unparsable stored `tags` text makes both list handlers fail 500 instead
of defaulting. -/
theorem c4_counterexample :
    getAllCourses [{ id := 1, title := none, category := none, image := none,
                     tags := none, whatYoullLearn := none, createdAt := 0 }] =
      .ok [{ id := 1, title := none, category := none, image := none,
             tags := [], whatYoullLearn := none, createdAt := 0 }] ∧
    getAllCourses [{ id := 2, title := none, category := none, image := none,
                     tags := some "oops", whatYoullLearn := none, createdAt := 0 }] =
      .error "Server error" ∧
    publicRoutesCourses [{ id := 3, title := none, category := none, image := none,
                           tags := some "oops", whatYoullLearn := none, createdAt := 0 }] =
      .error "Server error" :=
  ⟨rfl, rfl, rfl⟩

/-- C4 amended: on read the admin list defaults `tags` to `[]` for falsy
stored text but maps falsy `whatYoullLearn` to JS null (not `[]`), and
any stored text that fails to parse makes the whole list request fail
with 500 "Server error" instead of defaulting; the public-route list
defaults both fields to `[]` for falsy stored text. -/
theorem c4_amended_list_deserialization (store : List CourseRow) :
    ((∀ row ∈ store, (jsonParseStrArray (jsOrEmptyArr row.tags)).isSome ∧
        (∀ s, row.whatYoullLearn = some s → s ≠ "" → (jsonParseStrArray s).isSome)) →
      ∃ outs, getAllCourses store = .ok outs ∧
        List.Forall₂ (fun (row : CourseRow) (out : AdminCourseView) =>
          out.tags = (jsonParseStrArray (jsOrEmptyArr row.tags)).getD [] ∧
          out.whatYoullLearn = (match row.whatYoullLearn with
            | none => none
            | some s => if s = "" then none else jsonParseStrArray s)) store outs) ∧
    ((∃ row ∈ store, jsonParseStrArray (jsOrEmptyArr row.tags) = none ∨
        (∃ s, row.whatYoullLearn = some s ∧ s ≠ "" ∧ jsonParseStrArray s = none)) →
      getAllCourses store = .error "Server error") ∧
    ((∀ row ∈ store, (∀ s, row.tags = some s → s ≠ "" → (jsonParseStrArray s).isSome) ∧
        (∀ s, row.whatYoullLearn = some s → s ≠ "" → (jsonParseStrArray s).isSome)) →
      ∃ outs, publicRoutesCourses store = .ok outs ∧
        List.Forall₂ (fun (row : CourseRow) (out : PublicCourseView) =>
          (row.tags = none → out.tags = []) ∧
          (row.whatYoullLearn = none → out.whatYoullLearn = [])) store outs) := by
  refine ⟨?_, ?_, ?_⟩
  · intro h
    induction store with
    | nil => exact ⟨[], rfl, List.Forall₂.nil⟩
    | cons row rest ih =>
      obtain ⟨outs, houts, hrel⟩ := ih (fun r hr => h r (by simp [hr]))
      obtain ⟨v, hv, hvt, hvw⟩ := adminParseRow_ok_of row (h row (by simp)).1 (h row (by simp)).2
      refine ⟨v :: outs, ?_, List.Forall₂.cons ⟨hvt, hvw⟩ hrel⟩
      simp only [getAllCourses, mapExcept, hv]
      rw [show mapExcept adminParseRow rest = .ok outs from houts]
  · intro ⟨row, hmem, hfail⟩
    obtain ⟨e, he⟩ := adminParseRow_fails row hfail
    exact mapExcept_error_all adminParseRow store
      (fun a _ e2 he2 => adminParseRow_error_server a e2 he2) ⟨row, hmem, e, he⟩
  · intro h
    induction store with
    | nil => exact ⟨[], rfl, List.Forall₂.nil⟩
    | cons row rest ih =>
      obtain ⟨outs, houts, hrel⟩ := ih (fun r hr => h r (by simp [hr]))
      obtain ⟨v, hv, hvt, hvw⟩ := publicParseRow_ok_of row (h row (by simp)).1 (h row (by simp)).2
      refine ⟨v :: outs, ?_, List.Forall₂.cons ⟨hvt, hvw⟩ hrel⟩
      simp only [publicRoutesCourses, mapExcept, hv]
      rw [show mapExcept publicParseRow rest = .ok outs from houts]

/-- Witness for C4 amended: the all-null row lists fine; the unparsable
row fails 500. -/
theorem c4_amended_list_deserialization_witness :
    (∃ outs, getAllCourses [{ id := 1, title := none, category := none, image := none,
                              tags := none, whatYoullLearn := none, createdAt := 0 }] =
      .ok outs) ∧
    getAllCourses [{ id := 2, title := none, category := none, image := none,
                     tags := some "oops", whatYoullLearn := none, createdAt := 0 }] =
      .error "Server error" := by
  constructor
  · obtain ⟨outs, houts, -⟩ :=
      (c4_amended_list_deserialization [{ id := 1, title := none, category := none,
                                           image := none, tags := none,
                                           whatYoullLearn := none, createdAt := 0 }]).1 (by
          intro row hr
          simp only [List.mem_singleton] at hr
          subst hr
          exact ⟨by decide, fun s hs => by cases hs⟩)
    exact ⟨outs, houts⟩
  · exact (c4_amended_list_deserialization [{ id := 2, title := none, category := none,
                                              image := none, tags := some "oops",
                                              whatYoullLearn := none,
                                              createdAt := 0 }]).2.1
      ⟨{ id := 2, title := none, category := none, image := none, tags := some "oops",
         whatYoullLearn := none, createdAt := 0 }, by simp, Or.inl (by decide)⟩

/-- A `findAll` call with a limit returns at most that many rows. -/
theorem findAllWith_limit_le (category : Option String) (field direction : String) (n : Nat)
    (store rows : List CourseRow)
    (h : findAllWith category field direction (some n) store = .ok rows) :
    rows.length ≤ n := by
  simp only [findAllWith] at h
  split at h
  · cases h
  · split at h
    · cases h
    · injection h with h
      subst h
      simp [List.length_take]

/-- C5 counterexample: with eleven stored courses, the route mounted at
the public path returns all eleven — the same count as the authenticated
list — while the capped handler in `publicController.js` (which no route
mounts) would return ten. -/
theorem c5_counterexample :
    (publicRoutesCourses ((List.range 11).map (fun i =>
        { id := i + 1, title := none, category := none, image := none,
          tags := none, whatYoullLearn := none, createdAt := i }))).map List.length =
      .ok 11 ∧
    (getAllCourses ((List.range 11).map (fun i =>
        { id := i + 1, title := none, category := none, image := none,
          tags := none, whatYoullLearn := none, createdAt := i }))).map List.length =
      .ok 11 ∧
    (publicControllerGetAllCourses ((List.range 11).map (fun i =>
        { id := i + 1, title := none, category := none, image := none,
          tags := none, whatYoullLearn := none, createdAt := i }))
      { category := none, sortBy := none, sortOrder := none }).map List.length =
      .ok 10 := by
  refine ⟨rfl, rfl, rfl⟩

/-- C5 amended: the handler in `publicController.js` caps its result at
10, but it is not mounted by any route; the route actually exposed at the
public path (`/public/courses` in `publicRoutes.js`) runs an uncapped
`findAll` and returns one course per stored row — exactly as many as the
authenticated list route — so the public listing is not smaller. -/
theorem c5_amended_public_not_capped (store : List CourseRow) :
    (∀ outs, publicRoutesCourses store = .ok outs → outs.length = store.length) ∧
    (∀ outs, getAllCourses store = .ok outs → outs.length = store.length) ∧
    (∀ q outs, publicControllerGetAllCourses store q = .ok outs → outs.length ≤ 10) := by
  refine ⟨?_, ?_, ?_⟩
  · intro outs h
    exact (List.Forall₂.length_eq ((mapExcept_ok_iff _ _ _).mp h)).symm
  · intro outs h
    exact (List.Forall₂.length_eq ((mapExcept_ok_iff _ _ _).mp h)).symm
  · intro q outs h
    simp only [publicControllerGetAllCourses] at h
    split at h
    · cases h
    · rename_i rows heq
      have h10 := findAllWith_limit_le _ _ _ _ _ _ heq
      have hlen := List.Forall₂.length_eq ((mapExcept_ok_iff _ _ _).mp h)
      omega

/-- Witness for C5 amended: a one-row store. -/
theorem c5_amended_public_not_capped_witness :
    ([{ id := 1, title := none, category := none, image := none, tags := [],
        whatYoullLearn := [], createdAt := 0 }] : List PublicCourseView).length =
      ([{ id := 1, title := none, category := none, image := none, tags := none,
          whatYoullLearn := none, createdAt := 0 }] : List CourseRow).length ∧
    ([{ id := 1, title := none, category := none, image := none, tags := [],
        whatYoullLearn := none, createdAt := 0 }] : List AdminCourseView).length =
      ([{ id := 1, title := none, category := none, image := none, tags := none,
          whatYoullLearn := none, createdAt := 0 }] : List CourseRow).length ∧
    ([{ id := 1, title := none, category := none, image := none, tags := [],
        whatYoullLearn := [], createdAt := 0 }] : List PublicCourseView).length ≤ 10 := by
  have h := c5_amended_public_not_capped
    [{ id := 1, title := none, category := none, image := none, tags := none,
       whatYoullLearn := none, createdAt := 0 }]
  exact ⟨h.1 _ rfl, h.2.1 _ rfl,
    h.2.2 { category := none, sortBy := none, sortOrder := none } _ rfl⟩

/-- C7 counterexample: with filter `category=""` the handler drops the
filter (JS falsiness) and returns courses of other categories; and with
more than ten matches the `limit: 10` truncates the result, so the
handler does not return exactly the matching courses. -/
theorem c7_counterexample :
    publicControllerGetAllCourses
      [{ id := 1, title := none, category := some "A", image := none, tags := none,
         whatYoullLearn := none, createdAt := 0 },
       { id := 2, title := none, category := some "B", image := none, tags := none,
         whatYoullLearn := none, createdAt := 1 }]
      { category := some "", sortBy := none, sortOrder := none } =
      .ok [{ id := 2, title := none, category := some "B", image := none, tags := [],
             whatYoullLearn := [], createdAt := 1 },
           { id := 1, title := none, category := some "A", image := none, tags := [],
             whatYoullLearn := [], createdAt := 0 }] ∧
    (publicControllerGetAllCourses ((List.range 11).map (fun i =>
        { id := i + 1, title := none, category := some "A", image := none,
          tags := none, whatYoullLearn := none, createdAt := i }))
      { category := some "A", sortBy := none, sortOrder := none }).map List.length =
      .ok 10 ∧
    (((List.range 11).map (fun i =>
        ({ id := i + 1, title := none, category := some "A", image := none,
           tags := none, whatYoullLearn := none, createdAt := i } : CourseRow))).filter
      (fun r => r.category == some "A")).length = 11 := by
  refine ⟨rfl, rfl, rfl⟩

/-- C7 amended: for every non-empty category string X the list selects
exactly the courses whose `category` equals X string-exactly, ordered by
the requested field and direction and truncated to the first 10 (all of
them when at most 10 match); an empty category parameter is falsy and
drops the filter entirely; absent sort parameters default to
`createdAt` descending. -/
theorem c7_amended_category_filter (store : List CourseRow) (X : String) (hX : X ≠ "")
    (key : CourseRow → Nat) (field : String) (hkey : colKey field = some key)
    (direction : String) (descending : Bool)
    (hdir : (direction = "ASC" ∧ descending = false) ∨
      (direction = "DESC" ∧ descending = true)) :
    (∃ rows, findAllWith (some X) field direction (some 10) store = .ok rows ∧
      (∀ r ∈ rows, r.category = some X) ∧
      rows.Pairwise (fun a b => rowLe key descending a b = true) ∧
      rows.length = min 10 (store.filter (fun r => r.category == some X)).length ∧
      ((store.filter (fun r => r.category == some X)).length ≤ 10 →
        rows.Perm (store.filter (fun r => r.category == some X)))) ∧
    (∀ q : CourseQuery, q.category = some "" →
      publicControllerGetAllCourses store q =
        publicControllerGetAllCourses store
          { category := none, sortBy := q.sortBy, sortOrder := q.sortOrder }) ∧
    (publicControllerGetAllCourses store
        { category := some X, sortBy := none, sortOrder := none } =
      match findAllWith (some X) "createdAt" "DESC" (some 10) store with
      | .error e => .error e
      | .ok rows => mapExcept publicParseRow rows) := by
  have hfilter : ∀ r ∈ store.filter (fun r => r.category == some X), r.category = some X := by
    intro r hr
    simpa using (List.mem_filter.mp hr).2
  have hspec : ∀ b : Bool,
      (∀ r ∈ (sortLe (rowLe key b) (store.filter (fun r => r.category == some X))).take 10,
        r.category = some X) ∧
      ((sortLe (rowLe key b) (store.filter (fun r => r.category == some X))).take 10).Pairwise
        (fun a c => rowLe key b a c = true) ∧
      ((sortLe (rowLe key b) (store.filter (fun r => r.category == some X))).take 10).length =
        min 10 (store.filter (fun r => r.category == some X)).length ∧
      ((store.filter (fun r => r.category == some X)).length ≤ 10 →
        ((sortLe (rowLe key b) (store.filter (fun r => r.category == some X))).take 10).Perm
          (store.filter (fun r => r.category == some X))) := by
    intro b
    have hperm := sortLe_perm (rowLe key b) (store.filter (fun r => r.category == some X))
    refine ⟨?_, ?_, ?_, ?_⟩
    · intro r hr
      exact hfilter r (hperm.mem_iff.mp (List.mem_of_mem_take hr))
    · exact (sortLe_pairwise (rowLe key b) (rowLe_total key b) (rowLe_trans key b) _).sublist
        (List.take_sublist 10 _)
    · rw [List.length_take, hperm.length_eq]
    · intro hle
      have hlen : (sortLe (rowLe key b)
          (store.filter (fun r => r.category == some X))).length ≤ 10 := by
        rw [hperm.length_eq]
        exact hle
      rw [List.take_of_length_le hlen]
      exact hperm
  refine ⟨?_, ?_, ?_⟩
  · obtain ⟨h1, h2, h3, h4⟩ := hspec descending
    refine ⟨_, ?_, h1, h2, h3, h4⟩
    rcases hdir with ⟨hd, hb⟩ | ⟨hd, hb⟩ <;> subst hd <;> subst hb <;>
      simp only [findAllWith, hkey] <;> rfl
  · intro q hq
    obtain ⟨qc, qs, qo⟩ := q
    simp only at hq
    subst hq
    rfl
  · simp only [publicControllerGetAllCourses]
    rw [if_neg hX]
    rfl

/-- Witness for C7 amended: a one-row store with category "A". -/
theorem c7_amended_category_filter_witness :
    ∃ rows, findAllWith (some "A") "createdAt" "DESC" (some 10)
        [{ id := 1, title := none, category := some "A", image := none, tags := none,
           whatYoullLearn := none, createdAt := 0 }] = .ok rows ∧
      ∀ r ∈ rows, r.category = some "A" := by
  obtain ⟨rows, hrows, hcat, -, -, -⟩ :=
    (c7_amended_category_filter
      [{ id := 1, title := none, category := some "A", image := none, tags := none,
         whatYoullLearn := none, createdAt := 0 }]
      "A" (by decide) (fun r => r.createdAt) "createdAt" rfl
      "DESC" true (Or.inr ⟨rfl, rfl⟩)).1
  exact ⟨rows, hrows, hcat⟩

end Korelium
